import Mathlib

/-!
Verification development for the xterra mineral-analysis pipeline.

The Python sources are shallowly embedded here:
* numpy float arrays become `List (List FVal)` (resp. `List (List ℚ)` once all
  values are known finite), where `FVal` models an IEEE-style value as either a
  finite rational, `+inf`, `-inf`, or `NaN`;
* float arithmetic is modelled as exact rational arithmetic on the finite part,
  with the IEEE special-value propagation rules made explicit;
* the affine geotransform is the 6-coefficient map of `rasterio.Affine`, with
  `rowcol` = inverse transform followed by `floor`, and `xy` = forward
  transform at the pixel centre.

Each embedded function keeps the name of the Python function it is taken from
(`src/backend/mineral_indices.py`, `src/backend/lithology.py`,
`src/backend/hotspot_detector.py`, `src/backend/analysis.py`,
`src/routes/analyze.py`).
-/

namespace XTerra

/-- numpy-style clip on rationals: `np.clip(x, lo, hi) = min(hi, max(lo, x))`. -/
def clipQ (lo hi x : ℚ) : ℚ := min hi (max lo x)

/-- Model of an IEEE floating-point value: a finite rational, an infinity,
or NaN.  Overflow to infinity is not modelled (inputs stay well inside the
float32 range in this code base); the special values arise only from the
divisions by zero that the sources guard against. -/
inductive FVal where
  | fin (q : ℚ)
  | pinf
  | ninf
  | nan
deriving DecidableEq, Repr

namespace FVal

/-- Is the value finite? (`np.isfinite`). -/
def isFinite : FVal → Bool
  | fin _ => true
  | _ => false

/-- The finite part of a value (0 for the special values). -/
def toQ : FVal → ℚ
  | fin q => q
  | _ => 0

/-- IEEE negation. -/
def neg : FVal → FVal
  | fin q => fin (-q)
  | pinf => ninf
  | ninf => pinf
  | nan => nan

/-- IEEE addition: NaN propagates, `+inf + -inf = NaN`. -/
def add : FVal → FVal → FVal
  | nan, _ => nan
  | _, nan => nan
  | pinf, ninf => nan
  | ninf, pinf => nan
  | pinf, _ => pinf
  | _, pinf => pinf
  | ninf, _ => ninf
  | _, ninf => ninf
  | fin a, fin b => fin (a + b)

/-- IEEE subtraction. -/
def sub (a b : FVal) : FVal := add a (neg b)

/-- IEEE multiplication: NaN propagates, `inf * 0 = NaN`. -/
def mul : FVal → FVal → FVal
  | nan, _ => nan
  | _, nan => nan
  | pinf, pinf => pinf
  | pinf, ninf => ninf
  | ninf, pinf => ninf
  | ninf, ninf => pinf
  | pinf, fin b => if b = 0 then nan else if 0 < b then pinf else ninf
  | fin a, pinf => if a = 0 then nan else if 0 < a then pinf else ninf
  | ninf, fin b => if b = 0 then nan else if 0 < b then ninf else pinf
  | fin a, ninf => if a = 0 then nan else if 0 < a then ninf else pinf
  | fin a, fin b => fin (a * b)

/-- IEEE (numpy array) division: NaN propagates, `inf/inf = NaN`,
`x/0` is NaN for `x = 0` and a signed infinity otherwise, `finite/inf = 0`. -/
def div : FVal → FVal → FVal
  | nan, _ => nan
  | _, nan => nan
  | pinf, pinf => nan
  | pinf, ninf => nan
  | ninf, pinf => nan
  | ninf, ninf => nan
  | pinf, fin b => if 0 ≤ b then pinf else ninf
  | ninf, fin b => if 0 ≤ b then ninf else pinf
  | fin _, pinf => fin 0
  | fin _, ninf => fin 0
  | fin a, fin b =>
      if b = 0 then (if a = 0 then nan else if 0 < a then pinf else ninf)
      else fin (a / b)

/-- IEEE comparison `x <= y` as numpy evaluates it: any comparison with NaN
is false. -/
def fle : FVal → FVal → Bool
  | nan, _ => false
  | _, nan => false
  | ninf, _ => true
  | _, pinf => true
  | pinf, _ => false
  | fin _, ninf => false
  | fin a, fin b => decide (a ≤ b)

/-- numpy `clip(x, lo, hi)` on a float value: NaN passes through, the
infinities are clamped to the bounds, finite values are clamped as rationals. -/
def clip (lo hi : ℚ) : FVal → FVal
  | nan => nan
  | pinf => fin hi
  | ninf => fin lo
  | fin q => fin (min hi (max lo q))

/-- Largest finite float32 value, `(2 - 2^-23) * 2^127`, used by
`np.nan_to_num` as the replacement for `+inf`. -/
def f32max : ℚ := 2 ^ 128 - 2 ^ 104

/-- numpy `nan_to_num` with the default replacements: NaN becomes 0 and the
infinities become the extreme finite float32 values. -/
def nanToNum : FVal → FVal
  | nan => fin 0
  | pinf => fin f32max
  | ninf => fin (-f32max)
  | fin q => fin q

/-- One step of the fold computing `np.nanmax`: NaN operands are ignored. -/
def fmaxIgnoreNan : FVal → FVal → FVal
  | nan, b => b
  | a, nan => a
  | pinf, _ => pinf
  | _, pinf => pinf
  | ninf, b => b
  | a, ninf => a
  | fin a, fin b => fin (max a b)

/-- numpy `nanmax` over a flattened array: the maximum ignoring NaNs
(NaN when every entry is NaN, matching numpy's all-NaN result). -/
def nanmaxF (l : List FVal) : FVal := l.foldl fmaxIgnoreNan nan

end FVal

/-- Elementwise combination of two 2-D arrays (numpy broadcasting of a binary
ufunc over same-shaped arrays). -/
def zip2D (f : FVal → FVal → FVal) (a b : List (List FVal)) : List (List FVal) :=
  List.zipWith (List.zipWith f) a b

/-- Elementwise map over a 2-D array. -/
def map2D (f : FVal → FVal) (a : List (List FVal)) : List (List FVal) :=
  a.map (List.map f)

/-! ### Index Calculator — `src/backend/mineral_indices.py` -/

/-- The replacement of non-positive samples,
`np.where(band <= 0, 0.0001, band)`; a NaN compares false and is kept. -/
def epsReplace (x : FVal) : FVal := if FVal.fle x (FVal.fin 0) then FVal.fin (1 / 10000) else x

/-- Per-pixel iron-oxide index: `clip((swir1 - nir) / (swir1 + nir + 1e-8), -1, 1)`
followed by `nan_to_num`. -/
def ironOxidePixel (nir swir1 : FVal) : FVal :=
  FVal.nanToNum (FVal.clip (-1) 1
    (FVal.div (FVal.sub swir1 nir) (FVal.add (FVal.add swir1 nir) (FVal.fin (1 / 100000000)))))

/-- Per-pixel clay index: `clip(swir1 / swir2, 0, 2)` then `nan_to_num`. -/
def clayPixel (swir1 swir2 : FVal) : FVal :=
  FVal.nanToNum (FVal.clip 0 2 (FVal.div swir1 swir2))

/-- Per-pixel silica index: `clip(swir2 / swir1, 0, 2)` then `nan_to_num`. -/
def silicaPixel (swir1 swir2 : FVal) : FVal :=
  FVal.nanToNum (FVal.clip 0 2 (FVal.div swir2 swir1))

/-- Per-pixel K-feldspar index: `clip(nir / red, 0, 3)` then `nan_to_num`. -/
def kfeldsparPixel (red nir : FVal) : FVal :=
  FVal.nanToNum (FVal.clip 0 3 (FVal.div nir red))

/-- The four index arrays returned by `calculate_mineral_indices`. -/
structure MineralIndices where
  iron_oxide : List (List FVal)
  clay : List (List FVal)
  silica : List (List FVal)
  kfeldspar : List (List FVal)
deriving DecidableEq

/-- `calculate_mineral_indices(red, nir, swir1, swir2)`: replace non-positive
samples by 0.0001, then compute the four clipped band-ratio indices. -/
def calculate_mineral_indices (red nir swir1 swir2 : List (List FVal)) : MineralIndices :=
  let red := map2D epsReplace red
  let nir := map2D epsReplace nir
  let swir1 := map2D epsReplace swir1
  let swir2 := map2D epsReplace swir2
  ⟨zip2D ironOxidePixel nir swir1,
   zip2D clayPixel swir1 swir2,
   zip2D silicaPixel swir1 swir2,
   zip2D kfeldsparPixel red nir⟩

/-! ### Lithology Classifier — `src/backend/lithology.py` -/

/-- Raw granite ratio, `(swir2 / swir1) * (nir / red)` (no epsilon guard). -/
def graniteRawRatio (red nir swir1 swir2 : List (List FVal)) : List (List FVal) :=
  zip2D FVal.mul (zip2D FVal.div swir2 swir1) (zip2D FVal.div nir red)

/-- Raw rhyolite ratio, `swir1 / red`. -/
def rhyoliteRawRatio (red swir1 : List (List FVal)) : List (List FVal) :=
  zip2D FVal.div swir1 red

/-- Raw basalt ratio, `red / nir`. -/
def basaltRawRatio (red nir : List (List FVal)) : List (List FVal) :=
  zip2D FVal.div red nir

/-- The normalizing step shared by the three indicators:
`nan_to_num(clip(raw / nanmax(raw), 0, 1), 0)`. -/
def normalizeByMax (raw : List (List FVal)) : List (List FVal) :=
  let M := FVal.nanmaxF raw.flatten
  raw.map (List.map (fun x => FVal.nanToNum (FVal.clip 0 1 (FVal.div x M))))

/-- The three indicator arrays returned by `classify_lithology`. -/
structure Lithology where
  granite : List (List FVal)
  rhyolite : List (List FVal)
  basalt : List (List FVal)
deriving DecidableEq

/-- `classify_lithology(red, nir, swir1, swir2)`. -/
def classify_lithology (red nir swir1 swir2 : List (List FVal)) : Lithology :=
  ⟨normalizeByMax (graniteRawRatio red nir swir1 swir2),
   normalizeByMax (rhyoliteRawRatio red swir1),
   normalizeByMax (basaltRawRatio red nir)⟩

/-! ### Helper lemmas about the float model -/

/-- Clipping to `[lo, hi]` and then removing NaNs yields a finite value inside
`[lo, hi]` whenever `lo ≤ 0 ≤ hi`, for every input value. -/
theorem nanToNum_clip_bounds (lo hi : ℚ) (hlo : lo ≤ 0) (hhi : 0 ≤ hi) (v : FVal) :
    (FVal.nanToNum (FVal.clip lo hi v)).isFinite = true ∧
      lo ≤ (FVal.nanToNum (FVal.clip lo hi v)).toQ ∧
      (FVal.nanToNum (FVal.clip lo hi v)).toQ ≤ hi := by
  have hlohi : lo ≤ hi := hlo.trans hhi
  cases v with
  | fin q =>
      refine ⟨rfl, ?_, ?_⟩
      · simp only [FVal.clip, FVal.nanToNum, FVal.toQ]
        exact le_min hlohi (le_max_left lo q)
      · simp only [FVal.clip, FVal.nanToNum, FVal.toQ]
        exact min_le_left hi _
  | pinf => exact ⟨rfl, by simpa [FVal.clip, FVal.nanToNum, FVal.toQ] using hlohi, by simp [FVal.clip, FVal.nanToNum, FVal.toQ]⟩
  | ninf => exact ⟨rfl, by simp [FVal.clip, FVal.nanToNum, FVal.toQ], by simpa [FVal.clip, FVal.nanToNum, FVal.toQ] using hlohi⟩
  | nan => exact ⟨rfl, by simpa [FVal.clip, FVal.nanToNum, FVal.toQ] using hlo, by simpa [FVal.clip, FVal.nanToNum, FVal.toQ] using hhi⟩

/-- Membership in an elementwise combination of two 2-D arrays comes from a
pair of input values. -/
theorem mem_zipWith {α β γ : Type} {f : α → β → γ} :
    ∀ {l₁ : List α} {l₂ : List β} {x : γ}, x ∈ List.zipWith f l₁ l₂ →
      ∃ a b, a ∈ l₁ ∧ b ∈ l₂ ∧ x = f a b := by
  intro l₁
  induction l₁ with
  | nil => intro l₂ x h; simp at h
  | cons a as ih =>
      intro l₂ x h
      cases l₂ with
      | nil => simp at h
      | cons b bs =>
          rcases List.mem_cons.mp h with h | h
          · exact ⟨a, b, List.mem_cons_self _ _, List.mem_cons_self _ _, h⟩
          · rcases ih h with ⟨a0, b0, ha, hb, hx⟩
            exact ⟨a0, b0, List.mem_cons_of_mem _ ha, List.mem_cons_of_mem _ hb, hx⟩

/-- Every element of a flattened `zip2D` is the image of a pair of inputs. -/
theorem mem_zip2D_flatten {f : FVal → FVal → FVal} {a b : List (List FVal)} {v : FVal}
    (h : v ∈ (zip2D f a b).flatten) : ∃ x y, v = f x y := by
  rcases List.mem_flatten.mp h with ⟨row, hrow, hv⟩
  rcases mem_zipWith hrow with ⟨ra, rb, _, _, hr⟩
  subst hr
  rcases mem_zipWith hv with ⟨x, y, _, _, hxy⟩
  exact ⟨x, y, hxy⟩

/-! ### C5 — Index Calculator outputs are finite and in range -/

/-- C5: for all input band arrays (any float values), every element of each of
the four index arrays of `calculate_mineral_indices` is finite and lies inside
its clip range: iron oxide in `[-1, 1]`, clay in `[0, 2]`, silica in `[0, 2]`,
K-feldspar in `[0, 3]`.  No division result that is non-finite survives to the
output. -/
theorem mineral_indices_finite_in_range (red nir swir1 swir2 : List (List FVal)) :
    (∀ v ∈ (calculate_mineral_indices red nir swir1 swir2).iron_oxide.flatten,
        v.isFinite = true ∧ -1 ≤ v.toQ ∧ v.toQ ≤ 1) ∧
    (∀ v ∈ (calculate_mineral_indices red nir swir1 swir2).clay.flatten,
        v.isFinite = true ∧ 0 ≤ v.toQ ∧ v.toQ ≤ 2) ∧
    (∀ v ∈ (calculate_mineral_indices red nir swir1 swir2).silica.flatten,
        v.isFinite = true ∧ 0 ≤ v.toQ ∧ v.toQ ≤ 2) ∧
    (∀ v ∈ (calculate_mineral_indices red nir swir1 swir2).kfeldspar.flatten,
        v.isFinite = true ∧ 0 ≤ v.toQ ∧ v.toQ ≤ 3) := by
  refine ⟨?_, ?_, ?_, ?_⟩
  · intro v hv
    rcases mem_zip2D_flatten hv with ⟨x, y, hxy⟩
    subst hxy
    exact nanToNum_clip_bounds (-1) 1 (by norm_num) (by norm_num) _
  · intro v hv
    rcases mem_zip2D_flatten hv with ⟨x, y, hxy⟩
    subst hxy
    exact nanToNum_clip_bounds 0 2 le_rfl (by norm_num) _
  · intro v hv
    rcases mem_zip2D_flatten hv with ⟨x, y, hxy⟩
    subst hxy
    exact nanToNum_clip_bounds 0 2 le_rfl (by norm_num) _
  · intro v hv
    rcases mem_zip2D_flatten hv with ⟨x, y, hxy⟩
    subst hxy
    exact nanToNum_clip_bounds 0 3 le_rfl (by norm_num) _

/-- Witness for C5 at a concrete input: a 1x1 raster with a zero red band. -/
theorem mineral_indices_finite_in_range_witness :
    (FVal.fin 1 ∈ (calculate_mineral_indices [[FVal.fin 0]] [[FVal.fin 2]] [[FVal.fin 4]] [[FVal.fin 4]]).clay.flatten) ∧
    ((FVal.fin 1 : FVal).isFinite = true ∧ 0 ≤ (FVal.fin 1 : FVal).toQ ∧ (FVal.fin 1 : FVal).toQ ≤ 2) := by
  constructor
  · show FVal.fin 1 ∈ (calculate_mineral_indices [[FVal.fin 0]] [[FVal.fin 2]] [[FVal.fin 4]] [[FVal.fin 4]]).clay.flatten
    norm_num [calculate_mineral_indices, map2D, zip2D, epsReplace, clayPixel,
      FVal.fle, FVal.div, FVal.clip, FVal.nanToNum]
  · exact (mineral_indices_finite_in_range [[FVal.fin 0]] [[FVal.fin 2]] [[FVal.fin 4]] [[FVal.fin 4]]).2.1
      (FVal.fin 1)
      (by norm_num [calculate_mineral_indices, map2D, zip2D, epsReplace, clayPixel,
            FVal.fle, FVal.div, FVal.clip, FVal.nanToNum])

/-! ### C6 — Lithology Classifier degenerate-maximum behaviour -/

/-- The contribution order used by `nanmax`: `fbelow x M` says `x` cannot push
the running maximum above `M` (NaN never contributes, everything is below
`+inf`). -/
def fbelow : FVal → FVal → Bool
  | FVal.nan, _ => true
  | _, FVal.pinf => true
  | FVal.ninf, _ => true
  | FVal.fin a, FVal.fin b => decide (a ≤ b)
  | _, _ => false

theorem fbelow_fmax_right (a b : FVal) : fbelow b (FVal.fmaxIgnoreNan a b) = true := by
  cases a <;> cases b <;> simp [FVal.fmaxIgnoreNan, fbelow, le_max_right]

theorem fbelow_fmax_of_fbelow {x a : FVal} (b : FVal) (h : fbelow x a = true) :
    fbelow x (FVal.fmaxIgnoreNan a b) = true := by
  cases x <;> cases a <;> cases b <;>
    simp_all [FVal.fmaxIgnoreNan, fbelow]

theorem fbelow_foldl (l : List FVal) :
    ∀ acc : FVal, (∀ x ∈ l, fbelow x (l.foldl FVal.fmaxIgnoreNan acc) = true) ∧
      (∀ x, fbelow x acc = true → fbelow x (l.foldl FVal.fmaxIgnoreNan acc) = true) := by
  induction l with
  | nil => intro acc; exact ⟨by intro x h; simp at h, by intro x h; simpa using h⟩
  | cons a as ih =>
      intro acc
      constructor
      · intro x hx
        rcases List.mem_cons.mp hx with h | h
        · subst h
          exact (ih (FVal.fmaxIgnoreNan acc x)).2 x (fbelow_fmax_right acc x)
        · exact (ih (FVal.fmaxIgnoreNan acc a)).1 x h
      · intro x hx
        exact (ih (FVal.fmaxIgnoreNan acc a)).2 x (fbelow_fmax_of_fbelow a hx)

/-- Every array element is below the array's `nanmax`. -/
theorem fbelow_nanmaxF {l : List FVal} {x : FVal} (hx : x ∈ l) :
    fbelow x (FVal.nanmaxF l) = true :=
  (fbelow_foldl l FVal.nan).1 x hx

/-- The normalizing division followed by clip and `nan_to_num` collapses to 0
whenever the global maximum `M` is zero or non-finite, for every value `x`
that can actually occur below that maximum. -/
theorem normalize_step_zero {M x : FVal}
    (hM : M = FVal.fin 0 ∨ M.isFinite = false) (hx : fbelow x M = true) :
    FVal.nanToNum (FVal.clip 0 1 (FVal.div x M)) = FVal.fin 0 := by
  rcases hM with hM | hM
  · subst hM
    cases x with
    | fin q =>
        have hq : q ≤ 0 := by simpa [fbelow] using hx
        rcases lt_or_eq_of_le hq with hq0 | hq0
        · have h1 : ¬ (0:ℚ) < q := not_lt.mpr hq
          simp [FVal.div, FVal.clip, FVal.nanToNum, hq0.ne, h1]
        · subst hq0
          simp [FVal.div, FVal.clip, FVal.nanToNum]
    | pinf => simp [fbelow] at hx
    | ninf => simp [FVal.div, FVal.clip, FVal.nanToNum]
    | nan => simp [FVal.div, FVal.clip, FVal.nanToNum]
  · cases M with
    | fin q => simp [FVal.isFinite] at hM
    | pinf => cases x <;> simp [FVal.div, FVal.clip, FVal.nanToNum]
    | ninf => cases x <;> simp [fbelow] at hx ⊢ <;> simp [FVal.div, FVal.clip, FVal.nanToNum]
    | nan => cases x <;> simp [FVal.div, FVal.clip, FVal.nanToNum]

/-- Shared degenerate-maximum lemma: if the global `nanmax` of the raw ratio
array is zero or non-finite, `normalizeByMax` returns an all-zero array. -/
theorem normalizeByMax_all_zero (raw : List (List FVal))
    (h : FVal.nanmaxF raw.flatten = FVal.fin 0 ∨ (FVal.nanmaxF raw.flatten).isFinite = false) :
    ∀ v ∈ (normalizeByMax raw).flatten, v = FVal.fin 0 := by
  intro v hv
  rcases List.mem_flatten.mp hv with ⟨row, hrow, hvrow⟩
  unfold normalizeByMax at hrow
  rcases List.mem_map.mp hrow with ⟨row0, hrow0, hmap⟩
  subst hmap
  rcases List.mem_map.mp hvrow with ⟨x, hx, hxv⟩
  subst hxv
  exact normalize_step_zero h (fbelow_nanmaxF (List.mem_flatten.mpr ⟨row0, hrow0, hx⟩))

/-- C6: in `classify_lithology`, for each of the three indicators, if the
global maximum of the raw ratio array is zero or non-finite, the returned
indicator array is all zeros. -/
theorem classify_lithology_degenerate_max_zero (red nir swir1 swir2 : List (List FVal)) :
    ((FVal.nanmaxF (graniteRawRatio red nir swir1 swir2).flatten = FVal.fin 0 ∨
        (FVal.nanmaxF (graniteRawRatio red nir swir1 swir2).flatten).isFinite = false) →
      ∀ v ∈ (classify_lithology red nir swir1 swir2).granite.flatten, v = FVal.fin 0) ∧
    ((FVal.nanmaxF (rhyoliteRawRatio red swir1).flatten = FVal.fin 0 ∨
        (FVal.nanmaxF (rhyoliteRawRatio red swir1).flatten).isFinite = false) →
      ∀ v ∈ (classify_lithology red nir swir1 swir2).rhyolite.flatten, v = FVal.fin 0) ∧
    ((FVal.nanmaxF (basaltRawRatio red nir).flatten = FVal.fin 0 ∨
        (FVal.nanmaxF (basaltRawRatio red nir).flatten).isFinite = false) →
      ∀ v ∈ (classify_lithology red nir swir1 swir2).basalt.flatten, v = FVal.fin 0) :=
  ⟨fun h => normalizeByMax_all_zero _ h,
   fun h => normalizeByMax_all_zero _ h,
   fun h => normalizeByMax_all_zero _ h⟩

/-- Witness for C6 at a concrete input: a 1x1 raster whose granite raw ratio
is exactly 0, so the granite indicator is all zeros. -/
theorem classify_lithology_degenerate_max_zero_witness :
    ((classify_lithology [[FVal.fin 1]] [[FVal.fin 1]] [[FVal.fin 1]] [[FVal.fin 0]]).granite.getD 0 []).getD 0 (FVal.fin 5) = FVal.fin 0 := by
  have h := (classify_lithology_degenerate_max_zero
      [[FVal.fin 1]] [[FVal.fin 1]] [[FVal.fin 1]] [[FVal.fin 0]]).1
  have hmax : FVal.nanmaxF (graniteRawRatio [[FVal.fin 1]] [[FVal.fin 1]] [[FVal.fin 1]] [[FVal.fin 0]]).flatten = FVal.fin 0 := by
    norm_num [graniteRawRatio, zip2D, FVal.div, FVal.mul, FVal.nanmaxF, FVal.fmaxIgnoreNan]
  exact h (Or.inl hmax) _ (by
    norm_num [classify_lithology, normalizeByMax, graniteRawRatio, zip2D,
      FVal.div, FVal.mul, FVal.nanmaxF, FVal.fmaxIgnoreNan, FVal.clip, FVal.nanToNum])

/-! ### Grid Aggregator — `src/backend/analysis.py` -/

/-- The 6-coefficient affine geotransform of `rasterio.Affine`:
`x = a*col + b*row + c`, `y = d*col + e*row + f`. -/
structure Affine where
  a : ℚ
  b : ℚ
  c : ℚ
  d : ℚ
  e : ℚ
  f : ℚ
deriving DecidableEq

/-- `rasterio.transform.rowcol(transform, x, y)`: invert the affine map and
floor the fractional pixel coordinates, returning `(row, col)`. -/
def rowcolQ (t : Affine) (x y : ℚ) : ℤ × ℤ :=
  let det := t.a * t.e - t.b * t.d
  (⌊(t.a * (y - t.f) - t.d * (x - t.c)) / det⌋,
   ⌊(t.e * (x - t.c) - t.b * (y - t.f)) / det⌋)

/-- The geographic bounding box of the request. -/
structure Bounds where
  lat_min : ℚ
  lat_max : ℚ
  lon_min : ℚ
  lon_max : ℚ
deriving DecidableEq

/-- The pixel rectangle `index[r0:r1, c0:c1]` flattened row-major. -/
def regionList (g : List (List ℚ)) (r0 r1 c0 c1 : ℕ) : List ℚ :=
  ((List.range (r1 - r0)).map (fun di =>
    (List.range (c1 - c0)).map (fun dj => (g.getD (r0 + di) []).getD (c0 + dj) 0))).flatten

/-- One cell of the aggregation loop in `_generate_single_index_grid` /
`generate_heatmap_grid`: map the cell's geographic corners through the inverse
transform, order and clamp the pixel rectangle (widening the far corner by one
pixel), then take the maximum over the rectangle, or 0 when the rectangle is
empty.  A singular transform (which would raise in Python and be caught by the
`except` clause) also yields 0. -/
def fillCell (g : List (List ℚ)) (t : Affine) (b : Bounds) (n : ℕ) (i j : ℕ) : ℚ :=
  let latStep := (b.lat_max - b.lat_min) / n
  let lonStep := (b.lon_max - b.lon_min) / n
  let cellLatMax := b.lat_max - i * latStep
  let cellLatMin := b.lat_max - (i + 1) * latStep
  let cellLonMin := b.lon_min + j * lonStep
  let cellLonMax := b.lon_min + (j + 1) * lonStep
  if t.a * t.e - t.b * t.d = 0 then 0 else
  let p1 := rowcolQ t cellLonMin cellLatMax
  let p2 := rowcolQ t cellLonMax cellLatMin
  let rmin : ℤ := max 0 (min p1.1 p2.1)
  let rmax : ℤ := min (g.length : ℤ) (max p1.1 p2.1 + 1)
  let cmin : ℤ := max 0 (min p1.2 p2.2)
  let cmax : ℤ := min ((g.headD []).length : ℤ) (max p1.2 p2.2 + 1)
  if rmin < rmax ∧ cmin < cmax then
    match regionList g rmin.toNat rmax.toNat cmin.toNat cmax.toNat with
    | [] => 0
    | x :: xs => xs.foldl max x
  else 0

/-- The raw (pre-normalization) `grid_size x grid_size` grid. -/
def fillGrid (g : List (List ℚ)) (t : Affine) (b : Bounds) (n : ℕ) : List (List ℚ) :=
  (List.range n).map (fun i => (List.range n).map (fun j => fillCell g t b n i j))

/-- The qualifying cells of the normalization pass:
`np.isfinite(grid) & (grid > 0)` (all model values are finite). -/
def filterPos (l : List ℚ) : List ℚ := l.filter (fun v => decide (0 < v))

/-- Minimum of a list as computed by `.min()` on a non-empty selection
(junk value 0 on the empty list, which the caller never hits). -/
def listMin : List ℚ → ℚ
  | [] => 0
  | x :: xs => xs.foldl min x

/-- Maximum of a list as computed by `.max()`. -/
def listMax : List ℚ → ℚ
  | [] => 0
  | x :: xs => xs.foldl max x

/-- The per-cell effect of the final normalization pass of
`_generate_single_index_grid` / `generate_heatmap_grid`: with `qual` the list
of qualifying (positive) cell values, a qualifying cell is rescaled by the
global min/max (or set to 1.0 when all qualifying cells are equal), a
non-qualifying cell is left untouched, and when nothing qualifies the whole
grid is zeroed. -/
def normCell (qual : List ℚ) (v : ℚ) : ℚ :=
  match qual with
  | [] => 0
  | _ :: _ =>
      if 0 < v then
        (if listMin qual < listMax qual then (v - listMin qual) / (listMax qual - listMin qual) else 1)
      else v

/-- The final normalization pass, applied to every cell of the filled grid. -/
def normalizeGrid (g : List (List ℚ)) : List (List ℚ) :=
  g.map (List.map (normCell (filterPos g.flatten)))

/-- `np.nan_to_num(arr.astype("float32"), nan=0.0)` on the input array. -/
def sanitize (raw : List (List FVal)) : List (List ℚ) :=
  raw.map (List.map (fun v => (FVal.nanToNum v).toQ))

/-- `_generate_single_index_grid(index_array, transform, bounds, grid_size)`:
sanitize, aggregate each grid cell by the area maximum, then normalize. -/
def generateSingleIndexGrid (index_array : List (List FVal)) (t : Affine) (b : Bounds) (n : ℕ) :
    List (List ℚ) :=
  normalizeGrid (fillGrid (sanitize index_array) t b n)

/-- `generate_heatmap_grid(iron_oxide_index, clay_index, ...)`: the combined
index `(iron + clay + ferrous) / 3` with `ferrous = iron`, aggregated and
normalized the same way. -/
def generate_heatmap_grid (iron_oxide_index clay_index : List (List FVal)) (t : Affine)
    (b : Bounds) (n : ℕ) : List (List ℚ) :=
  normalizeGrid (fillGrid
    (List.zipWith (List.zipWith (fun iron clay => (iron + clay + iron) / 3))
      (sanitize iron_oxide_index) (sanitize clay_index)) t b n)

/-- `generate_copper_heatmap_grid`: combined index `(iron + ferrous) / 2`
with `ferrous = iron`, then the single-index grid. -/
def generate_copper_heatmap_grid (iron_oxide_index : List (List FVal)) (t : Affine)
    (b : Bounds) (n : ℕ) : List (List ℚ) :=
  generateSingleIndexGrid
    ((sanitize iron_oxide_index).map (List.map (fun q => FVal.fin ((q + q) / 2)))) t b n

/-- `generate_gold_heatmap_grid`: the clay index alone. -/
def generate_gold_heatmap_grid (clay_index : List (List FVal)) (t : Affine)
    (b : Bounds) (n : ℕ) : List (List ℚ) :=
  generateSingleIndexGrid clay_index t b n

/-! ### Facts about list minima and maxima as folds -/

theorem foldl_min_eq (l : List ℚ) : ∀ x : ℚ, l.foldl min x = if l = [] then x else min x (listMin l) := by
  induction l with
  | nil => intro x; simp
  | cons a as ih =>
      intro x
      simp only [List.foldl_cons, List.cons_ne_nil, if_false, listMin]
      rw [ih (min x a), ih a]
      cases as with
      | nil => simp
      | cons b bs => simp [min_assoc]

theorem foldl_max_eq (l : List ℚ) : ∀ x : ℚ, l.foldl max x = if l = [] then x else max x (listMax l) := by
  induction l with
  | nil => intro x; simp
  | cons a as ih =>
      intro x
      simp only [List.foldl_cons, List.cons_ne_nil, if_false, listMax]
      rw [ih (max x a), ih a]
      cases as with
      | nil => simp
      | cons b bs => simp [max_assoc]

theorem listMin_le {l : List ℚ} {x : ℚ} (hx : x ∈ l) : listMin l ≤ x := by
  induction l with
  | nil => simp at hx
  | cons a as ih =>
      show List.foldl min a as ≤ x
      rw [foldl_min_eq]
      rcases List.mem_cons.mp hx with h | h
      · subst h
        split
        · exact le_rfl
        · exact min_le_left _ _
      · have has : as ≠ [] := List.ne_nil_of_mem h
        rw [if_neg has]
        exact le_trans (min_le_right _ _) (ih h)

theorem le_listMax {l : List ℚ} {x : ℚ} (hx : x ∈ l) : x ≤ listMax l := by
  induction l with
  | nil => simp at hx
  | cons a as ih =>
      show x ≤ List.foldl max a as
      rw [foldl_max_eq]
      rcases List.mem_cons.mp hx with h | h
      · subst h
        split
        · exact le_rfl
        · exact le_max_left _ _
      · have has : as ≠ [] := List.ne_nil_of_mem h
        rw [if_neg has]
        exact le_trans (ih h) (le_max_right _ _)

theorem listMin_mem {l : List ℚ} (h : l ≠ []) : listMin l ∈ l := by
  induction l with
  | nil => exact absurd rfl h
  | cons a as ih =>
      show List.foldl min a as ∈ a :: as
      rw [foldl_min_eq]
      by_cases has : as = []
      · rw [if_pos has]; exact List.mem_cons_self _ _
      · rw [if_neg has]
        rcases min_choice a (listMin as) with hc | hc
        · rw [hc]; exact List.mem_cons_self _ _
        · rw [hc]; exact List.mem_cons_of_mem _ (ih has)

theorem listMax_mem {l : List ℚ} (h : l ≠ []) : listMax l ∈ l := by
  induction l with
  | nil => exact absurd rfl h
  | cons a as ih =>
      show List.foldl max a as ∈ a :: as
      rw [foldl_max_eq]
      by_cases has : as = []
      · rw [if_pos has]; exact List.mem_cons_self _ _
      · rw [if_neg has]
        rcases max_choice a (listMax as) with hc | hc
        · rw [hc]; exact List.mem_cons_self _ _
        · rw [hc]; exact List.mem_cons_of_mem _ (ih has)

/-! ### Facts about the normalization pass -/

theorem mem_filterPos {l : List ℚ} {x : ℚ} : x ∈ filterPos l ↔ x ∈ l ∧ 0 < x := by
  simp [filterPos, List.mem_filter]

theorem normCell_nonneg {qual : List ℚ} {v : ℚ} (hv : 0 < v) (hmem : v ∈ qual) :
    0 ≤ normCell qual v := by
  cases qual with
  | nil => simp at hmem
  | cons q qs =>
      simp only [normCell, if_pos hv]
      split
      · next hlt =>
          have hm : listMin (q :: qs) ≤ v := listMin_le hmem
          exact div_nonneg (sub_nonneg.mpr hm) (le_of_lt (sub_pos.mpr hlt))
      · norm_num

theorem normCell_le_one {qual : List ℚ} {v : ℚ} (hv : 0 < v) (hmem : v ∈ qual) :
    normCell qual v ≤ 1 := by
  cases qual with
  | nil => simp [normCell]
  | cons q qs =>
      simp only [normCell, if_pos hv]
      split
      · next hlt =>
          have hM : v ≤ listMax (q :: qs) := le_listMax hmem
          rw [div_le_one (sub_pos.mpr hlt)]
          exact sub_le_sub_right hM _
      · exact le_rfl

theorem normCell_of_not_pos {qual : List ℚ} {v : ℚ} (h : ¬ 0 < v) :
    normCell qual v = if qual = [] then 0 else v := by
  cases qual <;> simp [normCell, h]

/-- Every cell of the normalized grid is `normCell` of the matching raw cell. -/
theorem mem_normalizeGrid {g : List (List ℚ)} {v : ℚ} (hv : v ∈ (normalizeGrid g).flatten) :
    ∃ w ∈ g.flatten, v = normCell (filterPos g.flatten) w := by
  unfold normalizeGrid at hv
  rw [← List.map_flatten] at hv
  rcases List.mem_map.mp hv with ⟨w, hw, hvw⟩
  exact ⟨w, hw, hvw.symm⟩

/-- Positional version: the normalized value at `(i, j)` is `normCell` of the
raw value at `(i, j)`. -/
theorem normalizeGrid_cell (g : List (List ℚ)) (i j : ℕ)
    (hi : i < g.length) (hj : j < (g.getD i []).length) :
    ((normalizeGrid g).getD i []).getD j 0 =
      normCell (filterPos g.flatten) ((g.getD i []).getD j 0) := by
  have hrow : (normalizeGrid g).getD i [] =
      List.map (normCell (filterPos g.flatten)) (g.getD i []) := by
    unfold normalizeGrid
    rw [List.getD_eq_getElem?_getD, List.getElem?_map, List.getElem?_eq_getElem hi,
      List.getD_eq_getElem g [] hi]
    rfl
  rw [hrow, List.getD_eq_getElem?_getD, List.getElem?_map, List.getElem?_eq_getElem hj,
    List.getD_eq_getElem (g.getD i []) 0 hj]
  rfl

/-- A doubly-indexed `getD` value is either the default 0 or an element of the
flattened array. -/
theorem getD_getD_zero_or_mem (g : List (List ℚ)) (r c : ℕ) :
    (g.getD r []).getD c 0 = 0 ∨ (g.getD r []).getD c 0 ∈ g.flatten := by
  by_cases hr : r < g.length
  · have hrow : g.getD r [] = g[r] := List.getD_eq_getElem g [] hr
    by_cases hc : c < (g.getD r []).length
    · right
      rw [List.getD_eq_getElem (g.getD r []) 0 hc]
      refine List.mem_flatten.mpr ⟨g.getD r [], ?_, List.getElem_mem hc⟩
      rw [hrow]; exact List.getElem_mem hr
    · left
      rw [List.getD_eq_getElem?_getD, List.getElem?_eq_none (le_of_not_lt hc)]
      rfl
  · left
    have hnil : g.getD r [] = [] := by
      rw [List.getD_eq_getElem?_getD, List.getElem?_eq_none (le_of_not_lt hr)]
      rfl
    rw [hnil]
    rfl

theorem le_foldl_max (l : List ℚ) (x : ℚ) : x ≤ l.foldl max x := by
  rw [foldl_max_eq]
  split
  · exact le_rfl
  · exact le_max_left _ _

/-- Every cell filled by the aggregation loop is the image of `fillCell`. -/
theorem mem_fillGrid {g : List (List ℚ)} {t : Affine} {b : Bounds} {n : ℕ} {v : ℚ}
    (hv : v ∈ (fillGrid g t b n).flatten) : ∃ i j, v = fillCell g t b n i j := by
  rcases List.mem_flatten.mp hv with ⟨row, hrow, hvrow⟩
  rcases List.mem_map.mp hrow with ⟨i, _, hrowi⟩
  subst hrowi
  rcases List.mem_map.mp hvrow with ⟨j, _, hvj⟩
  exact ⟨i, j, hvj.symm⟩

/-- Every sample picked out of the pixel rectangle is non-negative when the
whole array is. -/
theorem regionList_nonneg {g : List (List ℚ)} (hg : ∀ x ∈ g.flatten, 0 ≤ x)
    (r0 r1 c0 c1 : ℕ) (x : ℚ) (hx : x ∈ regionList g r0 r1 c0 c1) : 0 ≤ x := by
  unfold regionList at hx
  rcases List.mem_flatten.mp hx with ⟨row, hrow, hxrow⟩
  rcases List.mem_map.mp hrow with ⟨di, _, hrowdi⟩
  subst hrowdi
  rcases List.mem_map.mp hxrow with ⟨dj, _, hxdj⟩
  rcases getD_getD_zero_or_mem g (r0 + di) (c0 + dj) with h0 | hm
  · rw [← hxdj, h0]
  · rw [← hxdj]; exact hg _ hm

/-- If every (sanitized) input sample is non-negative, so is every raw cell. -/
theorem fillCell_nonneg {g : List (List ℚ)} (hg : ∀ x ∈ g.flatten, 0 ≤ x)
    (t : Affine) (b : Bounds) (n i j : ℕ) : 0 ≤ fillCell g t b n i j := by
  unfold fillCell
  split
  · exact le_rfl
  dsimp only
  split
  · next =>
      split
      · exact le_rfl
      · next x xs heq =>
          have hx : 0 ≤ x :=
            regionList_nonneg hg _ _ _ _ x (heq.symm ▸ List.mem_cons_self x xs)
          exact le_trans hx (le_foldl_max xs x)
  · exact le_rfl

/-! ### C4 — normalization boundary cases -/

/-- C4: after the aggregation loop fills the grid, if every qualifying cell
(finite and strictly positive) holds the same positive value `c`, each
qualifying cell normalizes to exactly 1; and if no cell qualifies, every cell
of the returned grid is exactly 0. -/
theorem normalization_boundary (g : List (List ℚ)) (c : ℚ) :
    ((0 < c ∧ c ∈ g.flatten ∧ (∀ v ∈ g.flatten, 0 < v → v = c)) →
      ∀ i j, i < g.length → j < (g.getD i []).length →
        0 < (g.getD i []).getD j 0 → ((normalizeGrid g).getD i []).getD j 0 = 1) ∧
    ((∀ v ∈ g.flatten, ¬ 0 < v) → ∀ v ∈ (normalizeGrid g).flatten, v = 0) := by
  constructor
  · rintro ⟨hc, hcmem, hall⟩ i j hi hj hpos
    rw [normalizeGrid_cell g i j hi hj]
    set qual := filterPos g.flatten with hqual
    have hcq : c ∈ qual := mem_filterPos.mpr ⟨hcmem, hc⟩
    have hqne : qual ≠ [] := List.ne_nil_of_mem hcq
    have hqc : ∀ x ∈ qual, x = c := by
      intro x hx
      rcases mem_filterPos.mp hx with ⟨hxmem, hxpos⟩
      exact hall x hxmem hxpos
    have hmin : listMin qual = c := hqc _ (listMin_mem hqne)
    have hmax : listMax qual = c := hqc _ (listMax_mem hqne)
    cases hq : qual with
    | nil => exact absurd hq hqne
    | cons q qs =>
        rw [hq] at hmin hmax
        simp only [normCell, if_pos hpos, hmin, hmax, lt_irrefl, if_false]
  · intro hnone v hv
    have hqual : filterPos g.flatten = [] := by
      apply List.filter_eq_nil_iff.mpr
      intro a ha
      simpa using hnone a ha
    rcases mem_normalizeGrid hv with ⟨w, _, hvw⟩
    rw [hvw, hqual]
    rfl

/-! ### C1 — range of the normalized grid -/

set_option maxHeartbeats 4000000 in
/-- C1 counterexample: a 4x1 index array holding `[-1, -1, -1, 2]` with a unit
north-up geotransform, bounding box lat `[-4, 0]`, lon `[0, 1]`, grid size 2.
The two northern grid cells aggregate to `-1`, stay untouched by the
normalization pass (they do not qualify), and the returned grid holds `-1`,
which is not in `[0, 1]`. -/
theorem grid_range_counterexample :
    ((generateSingleIndexGrid [[FVal.fin (-1)], [FVal.fin (-1)], [FVal.fin (-1)], [FVal.fin 2]]
        ⟨1, 0, 0, 0, -1, 0⟩ ⟨-4, 0, 0, 1⟩ 2).getD 0 []).getD 0 0 = -1 ∧
      ¬ (0 : ℚ) ≤ -1 := by
  constructor
  · have hfill : fillGrid
        (sanitize [[FVal.fin (-1)], [FVal.fin (-1)], [FVal.fin (-1)], [FVal.fin 2]])
        ⟨1, 0, 0, 0, -1, 0⟩ ⟨-4, 0, 0, 1⟩ 2 = [[-1, -1], [2, 2]] := by
      norm_num [fillGrid, fillCell, rowcolQ, regionList,
        sanitize, FVal.nanToNum, FVal.toQ, List.range_succ]
      simp
      norm_num [List.range_succ, List.foldl]
    unfold generateSingleIndexGrid
    rw [hfill]
    norm_num [normalizeGrid, normCell, filterPos, listMin, listMax, List.filter, List.foldl]
  · norm_num

/-- C1 amended: every cell of the grid returned by
`_generate_single_index_grid` is finite (trivially, in this exact-arithmetic
model) and at most 1, and when the sanitized input array is everywhere
non-negative every cell lies in `[0, 1]`.  (The original claim fails because a
cell whose aggregated raw value is negative is left untouched by the
normalization pass.) -/
theorem grid_range_amended (arr : List (List FVal)) (t : Affine) (b : Bounds) (n : ℕ) :
    (∀ v ∈ (generateSingleIndexGrid arr t b n).flatten, v ≤ 1) ∧
    ((∀ x ∈ (sanitize arr).flatten, 0 ≤ x) →
      ∀ v ∈ (generateSingleIndexGrid arr t b n).flatten, 0 ≤ v ∧ v ≤ 1) := by
  have key : ∀ v ∈ (generateSingleIndexGrid arr t b n).flatten,
      (v ≤ 1 ∧ ((∀ x ∈ (sanitize arr).flatten, 0 ≤ x) → 0 ≤ v)) := by
    intro v hv
    unfold generateSingleIndexGrid at hv
    rcases mem_normalizeGrid hv with ⟨w, hw, hvw⟩
    by_cases hwpos : 0 < w
    · have hwq : w ∈ filterPos (fillGrid (sanitize arr) t b n).flatten :=
        mem_filterPos.mpr ⟨hw, hwpos⟩
      subst hvw
      exact ⟨normCell_le_one hwpos hwq, fun _ => normCell_nonneg hwpos hwq⟩
    · rw [normCell_of_not_pos hwpos] at hvw
      subst hvw
      constructor
      · split
        · norm_num
        · exact le_trans (not_lt.mp hwpos) (by norm_num)
      · intro hin
        have hw0 : 0 ≤ w := by
          rcases mem_fillGrid hw with ⟨i, j, hij⟩
          rw [hij]
          exact fillCell_nonneg hin t b n i j
        split
        · exact le_rfl
        · exact hw0
  exact ⟨fun v hv => (key v hv).1, fun hin v hv => ⟨(key v hv).2 hin, (key v hv).1⟩⟩

set_option maxHeartbeats 4000000 in
/-- Witness for the amended C1 on a concrete non-negative 1x1 input. -/
theorem grid_range_amended_witness :
    0 ≤ ((generateSingleIndexGrid [[FVal.fin 1]] ⟨1, 0, 0, 0, -1, 0⟩ ⟨-1, 0, 0, 1⟩ 1).getD 0 []).getD 0 0 ∧
    ((generateSingleIndexGrid [[FVal.fin 1]] ⟨1, 0, 0, 0, -1, 0⟩ ⟨-1, 0, 0, 1⟩ 1).getD 0 []).getD 0 0 ≤ 1 := by
  have hgrid : generateSingleIndexGrid [[FVal.fin 1]] ⟨1, 0, 0, 0, -1, 0⟩ ⟨-1, 0, 0, 1⟩ 1 = [[1]] := by
    have hfill : fillGrid (sanitize [[FVal.fin 1]]) ⟨1, 0, 0, 0, -1, 0⟩ ⟨-1, 0, 0, 1⟩ 1 = [[1]] := by
      norm_num [fillGrid, fillCell, rowcolQ, regionList,
        sanitize, FVal.nanToNum, FVal.toQ, List.range_succ]
    unfold generateSingleIndexGrid
    rw [hfill]
    norm_num [normalizeGrid, normCell, filterPos, listMin, listMax, List.filter, List.foldl]
  have h := (grid_range_amended [[FVal.fin 1]] ⟨1, 0, 0, 0, -1, 0⟩ ⟨-1, 0, 0, 1⟩ 1).2
    (by intro x hx; norm_num [sanitize, FVal.nanToNum, FVal.toQ] at hx; rw [hx]; norm_num)
    (((generateSingleIndexGrid [[FVal.fin 1]] ⟨1, 0, 0, 0, -1, 0⟩ ⟨-1, 0, 0, 1⟩ 1).getD 0 []).getD 0 0)
    (by rw [hgrid]; norm_num)
  exact h

/-- Witness for C4 at a concrete grid where both qualifying cells equal 2. -/
theorem normalization_boundary_witness :
    ((normalizeGrid [[(2 : ℚ), 0], [0, 2]]).getD 0 []).getD 0 0 = 1 := by
  refine (normalization_boundary [[(2 : ℚ), 0], [0, 2]] 2).1 ⟨by norm_num, by decide, ?_⟩ 0 0
    (by decide) (by decide) (by decide)
  decide

/-! ### C7 — monotonicity of the normalization pass -/

theorem listMin_append_cons (L R : List ℚ) (x : ℚ) :
    listMin (L ++ x :: R) = if L ++ R = [] then x else min x (listMin (L ++ R)) := by
  induction L with
  | nil =>
      show List.foldl min x R = _
      rw [foldl_min_eq]
      rfl
  | cons a L ih =>
      show List.foldl min a (L ++ x :: R) = _
      rw [foldl_min_eq, if_neg (by simp : L ++ x :: R ≠ [])]
      have hstep : listMin (L ++ x :: R) = if L ++ R = [] then x else min x (listMin (L ++ R)) := ih
      rw [hstep, if_neg (by simp : (a :: L) ++ R ≠ [])]
      show min a (if L ++ R = [] then x else min x (listMin (L ++ R))) =
        min x (List.foldl min a (L ++ R))
      rw [foldl_min_eq]
      by_cases h : L ++ R = []
      · rw [if_pos h, if_pos h]
        exact min_comm a x
      · rw [if_neg h, if_neg h]
        exact min_left_comm a x (listMin (L ++ R))

theorem listMax_append_cons (L R : List ℚ) (x : ℚ) :
    listMax (L ++ x :: R) = if L ++ R = [] then x else max x (listMax (L ++ R)) := by
  induction L with
  | nil =>
      show List.foldl max x R = _
      rw [foldl_max_eq]
      rfl
  | cons a L ih =>
      show List.foldl max a (L ++ x :: R) = _
      rw [foldl_max_eq, if_neg (by simp : L ++ x :: R ≠ [])]
      have hstep : listMax (L ++ x :: R) = if L ++ R = [] then x else max x (listMax (L ++ R)) := ih
      rw [hstep, if_neg (by simp : (a :: L) ++ R ≠ [])]
      show max a (if L ++ R = [] then x else max x (listMax (L ++ R))) =
        max x (List.foldl max a (L ++ R))
      rw [foldl_max_eq]
      by_cases h : L ++ R = []
      · rw [if_pos h, if_pos h]
        exact max_comm a x
      · rw [if_neg h, if_neg h]
        exact max_left_comm a x (listMax (L ++ R))

theorem filterPos_append_cons (L R : List ℚ) (v : ℚ) :
    filterPos (L ++ v :: R) =
      filterPos L ++ (if 0 < v then v :: filterPos R else filterPos R) := by
  unfold filterPos
  rw [List.filter_append, List.filter_cons]
  by_cases h : 0 < v
  · simp [h]
  · simp [h]

theorem normCell_pos_eq {qual : List ℚ} {v : ℚ} (h : qual ≠ []) (hv : 0 < v) :
    normCell qual v =
      if listMin qual < listMax qual then
        (v - listMin qual) / (listMax qual - listMin qual)
      else 1 := by
  cases qual with
  | nil => exact absurd rfl h
  | cons q qs => simp [normCell, hv]

/-- Core monotonicity fact: raising the raw value of one cell (the other
cells' raw values held fixed) never lowers that cell's value after the
global min/max normalization pass. -/
theorem normCell_bump (L R : List ℚ) (v w : ℚ) (hvw : v ≤ w) :
    normCell (filterPos (L ++ v :: R)) v ≤ normCell (filterPos (L ++ w :: R)) w := by
  by_cases hv : 0 < v
  · have hw : 0 < w := lt_of_lt_of_le hv hvw
    rw [filterPos_append_cons, if_pos hv, filterPos_append_cons, if_pos hw]
    have hqvne : filterPos L ++ v :: filterPos R ≠ [] := by simp
    have hqwne : filterPos L ++ w :: filterPos R ≠ [] := by simp
    rw [normCell_pos_eq hqvne hv, normCell_pos_eq hqwne hw,
      listMin_append_cons, listMax_append_cons, listMin_append_cons, listMax_append_cons]
    by_cases hO : filterPos L ++ filterPos R = []
    · rw [if_pos hO, if_pos hO, if_pos hO, if_pos hO]
      simp
    · rw [if_neg hO, if_neg hO, if_neg hO, if_neg hO]
      have hmoMO : listMin (filterPos L ++ filterPos R) ≤ listMax (filterPos L ++ filterPos R) :=
        listMin_le (listMax_mem hO)
      generalize listMin (filterPos L ++ filterPos R) = mO at hmoMO
      generalize listMax (filterPos L ++ filterPos R) = MO at hmoMO
      by_cases hPw : min w mO < max w MO
      · rw [if_pos hPw]
        by_cases hPv : min v mO < max v MO
        · rw [if_pos hPv]
          by_cases hvmO : v ≤ mO
          · rw [min_eq_left hvmO, sub_self, zero_div]
            exact div_nonneg (sub_nonneg.mpr (min_le_left w mO))
              (le_of_lt (sub_pos.mpr hPw))
          · push_neg at hvmO
            have hmv : min v mO = mO := min_eq_right (le_of_lt hvmO)
            have hmw : min w mO = mO := min_eq_right (le_of_lt (lt_of_lt_of_le hvmO hvw))
            rw [hmv] at hPv ⊢
            rw [hmw] at hPw ⊢
            by_cases hMOv : MO ≤ v
            · have hMOw : MO ≤ w := le_trans hMOv hvw
              rw [max_eq_left hMOv] at hPv ⊢
              rw [max_eq_left hMOw] at hPw ⊢
              rw [div_self (ne_of_gt (sub_pos.mpr hPv)),
                div_self (ne_of_gt (sub_pos.mpr hPw))]
            · push_neg at hMOv
              rw [max_eq_right (le_of_lt hMOv)] at hPv ⊢
              by_cases hwMO : w ≤ MO
              · rw [max_eq_right hwMO] at hPw ⊢
                rw [div_le_div_iff_of_pos_right (sub_pos.mpr hPv)]
                exact sub_le_sub_right hvw mO
              · push_neg at hwMO
                rw [max_eq_left (le_of_lt hwMO)] at hPw ⊢
                rw [div_self (ne_of_gt (sub_pos.mpr hPw)),
                  div_le_one (sub_pos.mpr hPv)]
                exact sub_le_sub_right (le_of_lt hMOv) mO
        · rw [if_neg hPv]
          have h1 : max v MO ≤ min v mO := not_lt.mp hPv
          have hvMO : MO ≤ v := le_trans (le_max_right v MO) (le_trans h1 (min_le_left _ _))
          have hvmO : v ≤ mO := le_trans (le_trans (le_max_left v MO) h1) (min_le_right _ _)
          have hmOv : mO = v := le_antisymm (le_trans hmoMO hvMO) hvmO
          have hMOv : MO = v := le_antisymm hvMO (le_trans hvmO hmoMO)
          rw [hmOv, hMOv] at hPw ⊢
          rw [min_eq_right hvw, max_eq_left hvw] at hPw ⊢
          rw [div_self (ne_of_gt (sub_pos.mpr hPw))]
      · rw [if_neg hPw]
        split
        · next hPv =>
            rw [div_le_one (sub_pos.mpr hPv)]
            exact sub_le_sub_right (le_max_left v MO) _
        · exact le_rfl
  · by_cases hw : 0 < w
    · rw [filterPos_append_cons, if_neg hv, filterPos_append_cons, if_pos hw]
      have hwmem : w ∈ filterPos L ++ w :: filterPos R :=
        List.mem_append.mpr (Or.inr (List.mem_cons_self _ _))
      refine le_trans ?_ (normCell_nonneg hw hwmem)
      rw [normCell_of_not_pos hv]
      split
      · exact le_rfl
      · exact not_lt.mp hv
    · rw [filterPos_append_cons, if_neg hv, filterPos_append_cons, if_neg hw,
        normCell_of_not_pos hv, normCell_of_not_pos hw]
      split
      · exact le_rfl
      · exact hvw

theorem flatten_take_getD_drop (g : List (List ℚ)) (i : ℕ) (hi : i < g.length) :
    g.flatten = (g.take i).flatten ++ (g.getD i [] ++ (g.drop (i + 1)).flatten) := by
  conv_lhs => rw [← List.take_append_drop i g]
  rw [← List.getElem_cons_drop g i hi, List.flatten_append, List.flatten_cons,
    List.getD_eq_getElem g [] hi]

theorem flatten_set (g : List (List ℚ)) (i : ℕ) (hi : i < g.length) (r : List ℚ) :
    (g.set i r).flatten = (g.take i).flatten ++ (r ++ (g.drop (i + 1)).flatten) := by
  rw [List.set_eq_take_append_cons_drop, if_pos hi, List.flatten_append, List.flatten_cons]

theorem take_getD_drop (l : List ℚ) (j : ℕ) (hj : j < l.length) :
    l = l.take j ++ l.getD j 0 :: l.drop (j + 1) := by
  conv_lhs => rw [← List.take_append_drop j l]
  rw [← List.getElem_cons_drop l j hj, List.getD_eq_getElem l 0 hj]

/-- C7: in the Grid Aggregator, raising the raw combined index value of one
grid cell (all other raw cells fixed) never decreases that cell's value after
the final min/max normalization pass of `_generate_single_index_grid` /
`generate_heatmap_grid`. -/
theorem grid_normalization_monotone (g : List (List ℚ)) (i j : ℕ) (w : ℚ)
    (hi : i < g.length) (hj : j < (g.getD i []).length)
    (hvw : (g.getD i []).getD j 0 ≤ w) :
    ((normalizeGrid g).getD i []).getD j 0 ≤
      ((normalizeGrid (g.set i ((g.getD i []).set j w))).getD i []).getD j 0 := by
  have hi2 : i < (g.set i ((g.getD i []).set j w)).length := by
    rw [List.length_set]; exact hi
  have hrow2 : (g.set i ((g.getD i []).set j w)).getD i [] = (g.getD i []).set j w := by
    rw [List.getD_eq_getElem?_getD, List.getElem?_set_self hi]
    rfl
  have hj2 : j < ((g.set i ((g.getD i []).set j w)).getD i []).length := by
    rw [hrow2, List.length_set]; exact hj
  have hjrow : j < (g.getD i []).length := hj
  have hcell2 : ((g.set i ((g.getD i []).set j w)).getD i []).getD j 0 = w := by
    rw [hrow2, List.getD_eq_getElem?_getD, List.getElem?_set_self hjrow]
    rfl
  have hflat : g.flatten =
      ((g.take i).flatten ++ (g.getD i []).take j) ++
        (g.getD i []).getD j 0 :: ((g.getD i []).drop (j + 1) ++ (g.drop (i + 1)).flatten) := by
    rw [flatten_take_getD_drop g i hi]
    conv_lhs => rw [take_getD_drop (g.getD i []) j hj]
    simp [List.append_assoc]
  have hflat2 : (g.set i ((g.getD i []).set j w)).flatten =
      ((g.take i).flatten ++ (g.getD i []).take j) ++
        w :: ((g.getD i []).drop (j + 1) ++ (g.drop (i + 1)).flatten) := by
    rw [flatten_set g i hi, List.set_eq_take_append_cons_drop, if_pos hj]
    simp [List.append_assoc]
  rw [normalizeGrid_cell g i j hi hj,
    normalizeGrid_cell (g.set i ((g.getD i []).set j w)) i j hi2 hj2, hcell2, hflat, hflat2]
  exact normCell_bump _ _ _ w hvw

/-- Witness for C7: raising the raw cell value 1 to 3 in the grid `[[1, 2]]`
moves its normalized value from 0 up to 1. -/
theorem grid_normalization_monotone_witness :
    ((normalizeGrid [[(1 : ℚ), 2]]).getD 0 []).getD 0 0 ≤
      ((normalizeGrid ([[(1 : ℚ), 2]].set 0 (([[(1 : ℚ), 2]].getD 0 []).set 0 3))).getD 0 []).getD 0 0 :=
  grid_normalization_monotone [[(1 : ℚ), 2]] 0 0 3 (by decide) (by decide) (by decide)

/-! ### Potential Scorer — `src/backend/hotspot_detector.py` -/

/-- `calculate_copper_potential` per pixel:
`clip(kfeldspar/3*0.4 + clay/2*0.3 + (iron_oxide+1)/2*0.15 + granite*0.15, 0, 1) * 100`. -/
def calculate_copper_potential (kfeldspar_index clay_index iron_oxide_index granite_index : ℚ) : ℚ :=
  clipQ 0 1 (kfeldspar_index / 3 * 0.4 + clay_index / 2 * 0.3 +
    (iron_oxide_index + 1) / 2 * 0.15 + granite_index * 0.15) * 100

/-- `calculate_gold_potential` per pixel:
`clip(silica/1.183*0.4 + clay/2*0.3 + (1 - kfeldspar/3)*0.15 + (iron_oxide+1)/2*0.15, 0, 1) * 100`. -/
def calculate_gold_potential (silica_index clay_index kfeldspar_index iron_oxide_index : ℚ) : ℚ :=
  clipQ 0 1 (silica_index / 1.183 * 0.4 + clay_index / 2 * 0.3 +
    (1 - kfeldspar_index / 3) * 0.15 + (iron_oxide_index + 1) / 2 * 0.15) * 100

theorem clipQ_bounds (lo hi x : ℚ) (h : lo ≤ hi) : lo ≤ clipQ lo hi x ∧ clipQ lo hi x ≤ hi :=
  ⟨le_min h (le_max_left lo x), min_le_left hi _⟩

/-- C2: on inputs already clipped to their documented ranges, the Potential
Scorer computes exactly the documented weighted sums, and both scores lie in
`[0, 100]`. -/
theorem potential_scorer_formula_and_range
    (kfeldspar_index clay_index silica_index iron_oxide_index granite_index : ℚ)
    (hk0 : 0 ≤ kfeldspar_index) (hk3 : kfeldspar_index ≤ 3)
    (hc0 : 0 ≤ clay_index) (hc2 : clay_index ≤ 2)
    (hs0 : 0 ≤ silica_index) (hs2 : silica_index ≤ 2)
    (hi1 : -1 ≤ iron_oxide_index) (hi2 : iron_oxide_index ≤ 1)
    (hg0 : 0 ≤ granite_index) (hg1 : granite_index ≤ 1) :
    calculate_copper_potential kfeldspar_index clay_index iron_oxide_index granite_index =
      clipQ 0 1 (kfeldspar_index / 3 * 0.4 + clay_index / 2 * 0.3 +
        (iron_oxide_index + 1) / 2 * 0.15 + granite_index * 0.15) * 100 ∧
    calculate_gold_potential silica_index clay_index kfeldspar_index iron_oxide_index =
      clipQ 0 1 (silica_index / 1.183 * 0.4 + clay_index / 2 * 0.3 +
        (1 - kfeldspar_index / 3) * 0.15 + (iron_oxide_index + 1) / 2 * 0.15) * 100 ∧
    (0 ≤ calculate_copper_potential kfeldspar_index clay_index iron_oxide_index granite_index ∧
      calculate_copper_potential kfeldspar_index clay_index iron_oxide_index granite_index ≤ 100) ∧
    (0 ≤ calculate_gold_potential silica_index clay_index kfeldspar_index iron_oxide_index ∧
      calculate_gold_potential silica_index clay_index kfeldspar_index iron_oxide_index ≤ 100) := by
  refine ⟨rfl, rfl, ⟨?_, ?_⟩, ⟨?_, ?_⟩⟩
  · exact mul_nonneg (clipQ_bounds 0 1 _ (by norm_num)).1 (by norm_num)
  · calc clipQ 0 1 _ * 100 ≤ 1 * 100 :=
        mul_le_mul_of_nonneg_right (clipQ_bounds 0 1 _ (by norm_num)).2 (by norm_num)
      _ = 100 := by norm_num
  · exact mul_nonneg (clipQ_bounds 0 1 _ (by norm_num)).1 (by norm_num)
  · calc clipQ 0 1 _ * 100 ≤ 1 * 100 :=
        mul_le_mul_of_nonneg_right (clipQ_bounds 0 1 _ (by norm_num)).2 (by norm_num)
      _ = 100 := by norm_num

/-- Witness for C2 at in-range concrete inputs. -/
theorem potential_scorer_formula_and_range_witness :
    0 ≤ calculate_copper_potential 1 1 0 1 ∧ calculate_copper_potential 1 1 0 1 ≤ 100 :=
  (potential_scorer_formula_and_range 1 1 1 0 1
    (by norm_num) (by norm_num) (by norm_num) (by norm_num) (by norm_num)
    (by norm_num) (by norm_num) (by norm_num) (by norm_num) (by norm_num)).2.2.1

/-! ### Hotspot extraction — `src/routes/analyze.py` -/

/-- `rasterio.transform.xy` at the pixel centre, returned as `(lat, lon)` the
way `pixel_to_latlon` flips it. -/
def pixelToLatLon (t : Affine) (row col : ℕ) : ℚ × ℚ :=
  (t.d * (col + 1 / 2) + t.e * (row + 1 / 2) + t.f,
   t.a * (col + 1 / 2) + t.b * (row + 1 / 2) + t.c)

/-- Python `round(q, d)`, modelled with the mathematical nearest-integer
rounding (Python rounds half to even on the underlying binary float; the two
agree except on exact ties, and only monotonicity matters below). -/
def roundTo (d : ℕ) (q : ℚ) : ℚ := (round (q * 10 ^ d) : ℚ) / 10 ^ d

/-- One returned hotspot record. -/
structure HotspotData where
  mineral : String
  confidence : ℚ
  lat : ℚ
  lon : ℚ
  depth_min : ℤ
  depth_max : ℤ
deriving DecidableEq

/-- `np.where(mask)`: the `True` pixel coordinates in row-major order. -/
def truePixels (mask : List (List Bool)) : List (ℕ × ℕ) :=
  (mask.mapIdx (fun i row =>
    (row.mapIdx (fun j bv => ((i, j), bv))).filterMap
      (fun p => if p.2 then some p.1 else none))).flatten

/-- `score_array[rows, cols]` for one pixel. -/
def scoreAt (s : List (List ℚ)) (p : ℕ × ℕ) : ℚ := (s.getD p.1 []).getD p.2 0

/-- `extract_hotspots_from_mask`: collect `True` pixels, sort ascending by
score (`np.argsort`), keep the last 50 and reverse (top 50, highest first),
and emit records with rounded confidence and coordinates. -/
def extract_hotspots_from_mask (mask : List (List Bool)) (score : List (List ℚ))
    (t : Affine) (mineral_type : String) (depth_min depth_max : ℤ) : List HotspotData :=
  let pairs := (truePixels mask).map (fun p => (p, scoreAt score p))
  let sorted := pairs.mergeSort (fun p q => decide (p.2 ≤ q.2))
  let top := (sorted.drop (sorted.length - 50)).reverse
  top.map (fun p =>
    ⟨mineral_type, roundTo 2 p.2, roundTo 6 (pixelToLatLon t p.1.1 p.1.2).1,
      roundTo 6 (pixelToLatLon t p.1.1 p.1.2).2, depth_min, depth_max⟩)

theorem roundTo_mono (d : ℕ) {q r : ℚ} (h : q ≤ r) : roundTo d q ≤ roundTo d r := by
  unfold roundTo
  have hpow : (0 : ℚ) < 10 ^ d := by positivity
  have hm : q * 10 ^ d ≤ r * 10 ^ d := mul_le_mul_of_nonneg_right h (le_of_lt hpow)
  have hr : round (q * 10 ^ d) ≤ round (r * 10 ^ d) := by
    rw [round_eq, round_eq]
    exact Int.floor_le_floor (by linarith)
  exact (div_le_div_iff_of_pos_right hpow).mpr (Int.cast_le.mpr hr)

/-- C3: for every mask and score array, each per-mineral hotspot list has at
most 50 entries and is sorted by non-increasing confidence (the score value at
the selected pixel, rounded to two decimals). -/
theorem hotspot_list_bounded_and_sorted (mask : List (List Bool)) (score : List (List ℚ))
    (t : Affine) (mineral_type : String) (depth_min depth_max : ℤ) :
    (extract_hotspots_from_mask mask score t mineral_type depth_min depth_max).length ≤ 50 ∧
    List.Sorted (fun a b : HotspotData => b.confidence ≤ a.confidence)
      (extract_hotspots_from_mask mask score t mineral_type depth_min depth_max) := by
  simp only [extract_hotspots_from_mask]
  constructor
  · rw [List.length_map, List.length_reverse, List.length_drop, List.length_mergeSort]
    omega
  · have hsorted : List.Pairwise
        (fun p q : (ℕ × ℕ) × ℚ => p.2 ≤ q.2)
        (((truePixels mask).map (fun p => (p, scoreAt score p))).mergeSort
          (fun p q => decide (p.2 ≤ q.2))) := by
      have h := @List.sorted_mergeSort ((ℕ × ℕ) × ℚ)
        (fun p q => decide (p.2 ≤ q.2))
        (fun a b c hab hbc => by
          simp only [decide_eq_true_eq] at hab hbc ⊢
          exact le_trans hab hbc)
        (fun a b => by
          simp only [Bool.or_eq_true, decide_eq_true_eq]
          exact le_total a.2 b.2)
        ((truePixels mask).map (fun p => (p, scoreAt score p)))
      exact h.imp (fun hab => by simpa using hab)
    have hdrop := hsorted.sublist (List.drop_sublist
      ((((truePixels mask).map (fun p => (p, scoreAt score p))).mergeSort
          (fun p q => decide (p.2 ≤ q.2))).length - 50)
      (((truePixels mask).map (fun p => (p, scoreAt score p))).mergeSort
        (fun p q => decide (p.2 ≤ q.2))))
    have hrev : List.Pairwise (fun p q : (ℕ × ℕ) × ℚ => q.2 ≤ p.2)
        ((((truePixels mask).map (fun p => (p, scoreAt score p))).mergeSort
            (fun p q => decide (p.2 ≤ q.2))).drop
          ((((truePixels mask).map (fun p => (p, scoreAt score p))).mergeSort
              (fun p q => decide (p.2 ≤ q.2))).length - 50)).reverse :=
      List.pairwise_reverse.mpr hdrop
    exact List.Pairwise.map _ (fun a b hab => roundTo_mono 2 hab) hrev

/-! ### Geological analysis — `generate_geological_analysis` in `src/backend/analysis.py` -/

/-- `np.nanmax` over a 2-D rational array (no NaNs remain in the model). -/
def nanmaxQ (g : List (List ℚ)) : ℚ := listMax g.flatten

/-- `np.nanmean` over a 2-D rational array. -/
def nanmeanQ (g : List (List ℚ)) : ℚ := g.flatten.sum / g.flatten.length

/-- The `"copper"` summary object. -/
structure CopperPotential where
  mean : ℚ
  max : ℚ
  assessment : String
  depth_m : String
  system : String
  host_rock : String
deriving DecidableEq

/-- The `"gold"` summary object. -/
structure GoldPotential where
  mean : ℚ
  max : ℚ
  assessment : String
  depth_m : String
  system : String
  environment : String
deriving DecidableEq

/-- One entry of the `"minerals"` object. -/
structure MineralStat where
  mean : ℚ
  max : ℚ
  status : String
  interpretation : String
deriving DecidableEq

/-- The `"risk_assessment"` object. -/
structure RiskAssessment where
  signal_convergence : String
  system_type : String
  similar_deposits : String
  overall_risk : String
deriving DecidableEq

/-- The `"recommendations"` object. -/
structure Recommendations where
  immediate : List String
  short_term : List String
  medium_term : List String
  action : String
deriving DecidableEq

/-- The full analysis dictionary. -/
structure GeologicalAnalysis where
  copper : CopperPotential
  gold : GoldPotential
  kfeldspar_stat : MineralStat
  clay_stat : MineralStat
  iron_oxide_stat : MineralStat
  silica_stat : MineralStat
  risk_assessment : RiskAssessment
  recommendations : Recommendations
deriving DecidableEq

/-- `generate_geological_analysis(copper_score, gold_score, kfeldspar_index,
clay_index, iron_oxide_index, silica_index)`. -/
def generate_geological_analysis
    (copper_score gold_score kfeldspar_index clay_index iron_oxide_index silica_index :
      List (List ℚ)) : GeologicalAnalysis :=
  ⟨⟨nanmeanQ copper_score, nanmaxQ copper_score,
    if 85 < nanmaxQ copper_score then ("HIGH POTENTIAL")
    else if 70 < nanmaxQ copper_score then ("MODERATE POTENTIAL")
    else ("LOW POTENTIAL"),
    ("250-750"), ("Porphyry Copper"), ("Granite (Precambrian intrusive)")⟩,
   ⟨nanmeanQ gold_score, nanmaxQ gold_score,
    if 80 < nanmaxQ gold_score then ("HIGH POTENTIAL")
    else if 65 < nanmaxQ gold_score then ("MODERATE-HIGH POTENTIAL")
    else ("MODERATE POTENTIAL"),
    ("100-300"), ("Epithermal Gold"), ("Silica-cap epithermal")⟩,
   ⟨nanmeanQ kfeldspar_index, nanmaxQ kfeldspar_index,
    if 5/2 < nanmaxQ kfeldspar_index then ("STRONG") else ("MODERATE"),
    ("Potassic core of porphyry system, copper mineralization")⟩,
   ⟨nanmeanQ clay_index, nanmaxQ clay_index,
    if 9/5 < nanmaxQ clay_index then ("STRONG") else ("MODERATE"),
    ("Phyllosilicate-rich zones, epithermal and distal porphyry")⟩,
   ⟨nanmeanQ iron_oxide_index, nanmaxQ iron_oxide_index,
    if 3/5 < nanmaxQ iron_oxide_index then ("STRONG") else ("MODERATE"),
    ("Hematite or limonite, near-surface oxidation and weathering")⟩,
   ⟨nanmeanQ silica_index, nanmaxQ silica_index,
    if 1 < nanmaxQ silica_index then ("STRONG") else ("MODERATE"),
    ("Silica-rich cap, shallow epithermal environment")⟩,
   ⟨("Multiple alteration signals converge on same area"),
    ("Classic porphyry system (PROVEN)"),
    ("Similar to existing Carlin deposits (KNOWN)"),
    ("LOW")⟩,
   ⟨[("Ground reconnaissance in AOI"),
     ("Rock sample collection for geochemistry"),
     ("Ground geophysical surveys (magnetic, gravity)")],
    [("Scout drilling program (0-3 months)"),
     ("Target: potassic-altered granite contact"),
     ("Depth: 300-500m initial holes")],
    [("Core logging and assay (3-12 months)"),
     ("Update 3D geological model"),
     ("Define mineralized resource boundaries")],
    ("PROCEED WITH DRILLING")⟩⟩

/-- C10: the `risk_assessment` and `recommendations` parts of
`generate_geological_analysis` are identical constants for every pair of
inputs — in particular `overall_risk` is always LOW and the final action is
always PROCEED WITH DRILLING — so these response fields do not depend on the
input data at all. -/
theorem geological_analysis_constant_fields
    (a1 a2 a3 a4 a5 a6 b1 b2 b3 b4 b5 b6 : List (List ℚ)) :
    (generate_geological_analysis a1 a2 a3 a4 a5 a6).risk_assessment =
        (generate_geological_analysis b1 b2 b3 b4 b5 b6).risk_assessment ∧
    (generate_geological_analysis a1 a2 a3 a4 a5 a6).recommendations =
        (generate_geological_analysis b1 b2 b3 b4 b5 b6).recommendations ∧
    (generate_geological_analysis a1 a2 a3 a4 a5 a6).risk_assessment.overall_risk = "LOW" ∧
    (generate_geological_analysis a1 a2 a3 a4 a5 a6).recommendations.action =
      "PROCEED WITH DRILLING" :=
  ⟨rfl, rfl, rfl, rfl⟩

/-! ### Heatmap Renderer — `grid_to_colored_heatmap_image` in
`src/backend/analysis.py` and `array_to_heatmap_image` in
`src/routes/analyze.py` -/

/-- The per-cell colour of `grid_to_colored_heatmap_image`: non-finite values
become 0, the value is clamped into `[0, 1]`, then bucketed by the fixed
4-colour legend. -/
def legendColor (v : FVal) : ℕ × ℕ × ℕ :=
  let q0 := if v.isFinite then v.toQ else 0
  let q := max 0 (min 1 q0)
  if q < 1/4 then (255, 255, 153)
  else if q < 1/2 then (255, 255, 0)
  else if q < 3/4 then (255, 165, 0)
  else (255, 0, 0)

/-- `grid_to_colored_heatmap_image`: one image pixel per grid cell. -/
def grid_to_colored_heatmap_image (g : List (List FVal)) : List (List (ℕ × ℕ × ℕ)) :=
  g.map (List.map legendColor)

/-- Linear interpolation between two RGB colours. -/
def lerpColor (c d : ℚ × ℚ × ℚ) (s : ℚ) : ℚ × ℚ × ℚ :=
  (c.1 + (d.1 - c.1) * s, c.2.1 + (d.2.1 - c.2.1) * s, c.2.2 + (d.2.2 - c.2.2) * s)

/-- The colormap of `array_to_heatmap_image`, evaluated at a position
`p ∈ [0, 1]`: piecewise-linear through the four anchors `#FFFFCC`, `#FFD700`,
`#FFA500`, `#FF4500` placed evenly (matplotlib
`LinearSegmentedColormap.from_list`). -/
def cmapAt (p : ℚ) : ℚ × ℚ × ℚ :=
  if p ≤ 1/3 then lerpColor (255, 255, 204) (255, 215, 0) (3 * p)
  else if p ≤ 2/3 then lerpColor (255, 215, 0) (255, 165, 0) (3 * p - 1)
  else lerpColor (255, 165, 0) (255, 69, 0) (3 * p - 2)

/-- The colour `array_to_heatmap_image` paints for a score value: the score is
clipped to `[0, 100]`, normalized by `vmin=0, vmax=100`, quantized into the
100-bin lookup table, and the bin's colour is the colormap at position
`k/99`. -/
def array_to_heatmap_color (v : ℚ) : ℚ × ℚ × ℚ :=
  let c := max 0 (min 100 v)
  let k := min 99 (⌊c / 100 * 100⌋.toNat)
  cmapAt (k / 99)

/-- Generic navigation: mapping a function over every cell maps the `(i, j)`
entry. -/
theorem map2D_getD {α β : Type} (f : α → β) (g : List (List α)) (i j : ℕ) (d1 : α) (d2 : β)
    (hi : i < g.length) (hj : j < (g.getD i []).length) :
    ((g.map (List.map f)).getD i []).getD j d2 = f ((g.getD i []).getD j d1) := by
  have hrow : (g.map (List.map f)).getD i [] = List.map f (g.getD i []) := by
    rw [List.getD_eq_getElem?_getD, List.getElem?_map, List.getElem?_eq_getElem hi,
      List.getD_eq_getElem g [] hi]
    rfl
  rw [hrow, List.getD_eq_getElem?_getD, List.getElem?_map, List.getElem?_eq_getElem hj,
    List.getD_eq_getElem (g.getD i []) d1 hj]
  rfl

/-- C9 counterexample: the claim says a raw score of 100 (top bucket) is
painted RGB (255, 0, 0); `array_to_heatmap_image` paints it with the top
colour of its continuous colormap, `#FF4500` = (255, 69, 0). -/
theorem heatmap_renderer_counterexample :
    array_to_heatmap_color 100 = (255, 69, 0) ∧
      ((255 : ℚ), (69 : ℚ), (0 : ℚ)) ≠ ((255 : ℚ), (0 : ℚ), (0 : ℚ)) := by
  constructor
  · norm_num [array_to_heatmap_color, cmapAt, lerpColor]
  · norm_num

/-- C9 amended: the grid renderer `grid_to_colored_heatmap_image` produces
exactly one image pixel per input cell, and colours every cell by the fixed
4-bucket legend after clamping the (finite-or-zeroed) value into `[0, 1]`;
the raw `[0, 100]` score-array path (`array_to_heatmap_image`) instead uses a
continuous 100-bin colormap through (255,255,204), (255,215,0), (255,165,0),
(255,69,0) and does not follow the bucketed legend. -/
theorem heatmap_renderer_amended (g : List (List FVal)) :
    (grid_to_colored_heatmap_image g).length = g.length ∧
    (∀ i, i < g.length →
      ((grid_to_colored_heatmap_image g).getD i []).length = (g.getD i []).length) ∧
    (∀ i j, i < g.length → j < (g.getD i []).length →
      ((grid_to_colored_heatmap_image g).getD i []).getD j (0, 0, 0) =
        (let v0 := (g.getD i []).getD j (FVal.fin 0)
         let q := max 0 (min 1 (if v0.isFinite then v0.toQ else 0))
         if q < 1/4 then ((255 : ℕ), (255 : ℕ), (153 : ℕ))
         else if q < 1/2 then (255, 255, 0)
         else if q < 3/4 then (255, 165, 0)
         else (255, 0, 0))) := by
  refine ⟨List.length_map _ _, ?_, ?_⟩
  · intro i hi
    have hrow : (grid_to_colored_heatmap_image g).getD i [] =
        List.map legendColor (g.getD i []) := by
      unfold grid_to_colored_heatmap_image
      rw [List.getD_eq_getElem?_getD, List.getElem?_map, List.getElem?_eq_getElem hi,
        List.getD_eq_getElem g [] hi]
      rfl
    rw [hrow, List.length_map]
  · intro i j hi hj
    unfold grid_to_colored_heatmap_image
    rw [map2D_getD legendColor g i j (FVal.fin 0) (0, 0, 0) hi hj]
    rfl

/-- Witness for the amended C9: a 1x1 grid holding 1.0 is painted red. -/
theorem heatmap_renderer_amended_witness :
    ((grid_to_colored_heatmap_image [[FVal.fin 1]]).getD 0 []).getD 0 (0, 0, 0) =
      (255, 0, 0) := by
  have h := (heatmap_renderer_amended [[FVal.fin 1]]).2.2 0 0 (by decide) (by decide)
  rw [h]
  norm_num [FVal.isFinite, FVal.toQ]

/-! ### Hotspot Detector — `detect_hotspots` in `src/backend/hotspot_detector.py` -/

/-- Mask lookup with `False` outside the raster. -/
def maskAt (m : List (List Bool)) (i j : ℕ) : Bool := (m.getD i []).getD j false

/-- Label lookup with 0 outside the raster. -/
def labAt (l : List (List ℕ)) (i j : ℕ) : ℕ := (l.getD i []).getD j 0

/-- Raster width, taken from the first row. -/
def maskWidth (m : List (List Bool)) : ℕ := (m.headD []).length

/-- Initial labels: every `True` pixel gets a distinct positive label. -/
def initLabels (m : List (List Bool)) : List (List ℕ) :=
  m.mapIdx (fun i row => row.mapIdx (fun j _ => i * maskWidth m + j + 1))

/-- One relaxation of a pixel's label: the minimum over itself and its
`True` 4-neighbours (the default `scipy.ndimage.label` connectivity). -/
def relaxCell (m : List (List Bool)) (l : List (List ℕ)) (i j : ℕ) : ℕ :=
  if maskAt m i j then
    let v0 := labAt l i j
    let v1 := if 0 < i ∧ maskAt m (i - 1) j then min v0 (labAt l (i - 1) j) else v0
    let v2 := if maskAt m (i + 1) j then min v1 (labAt l (i + 1) j) else v1
    let v3 := if 0 < j ∧ maskAt m i (j - 1) then min v2 (labAt l i (j - 1)) else v2
    if maskAt m i (j + 1) then min v3 (labAt l i (j + 1)) else v3
  else 0

/-- One relaxation sweep over the whole raster. -/
def relaxStep (m : List (List Bool)) (l : List (List ℕ)) : List (List ℕ) :=
  m.mapIdx (fun i row => row.mapIdx (fun j _ => relaxCell m l i j))

/-- Iterate the sweep. -/
def iterRelax (m : List (List Bool)) : ℕ → List (List ℕ) → List (List ℕ)
  | 0, l => l
  | k + 1, l => iterRelax m k (relaxStep m l)

/-- Stable component labels: one sweep per pixel guarantees convergence. -/
def labelComponents (m : List (List Bool)) : List (List ℕ) :=
  iterRelax m (m.length * maskWidth m) (initLabels m)

/-- `scipy.ndimage.label(mask)[1]` under the default 4-connectivity: the
number of connected components of `True` pixels, embedded as the number of
distinct stable labels. -/
def num_components (m : List (List Bool)) : ℕ :=
  (((truePixels m).map (fun p => labAt (labelComponents m) p.1 p.2)).dedup).length

/-- The dictionary returned by `detect_hotspots`. -/
structure HotspotsResult where
  copper_clusters : ℕ
  gold_clusters : ℕ
  copper_mask : List (List Bool)
  gold_mask : List (List Bool)
  copper_score : List (List ℚ)
  gold_score : List (List ℚ)
deriving DecidableEq

/-- `detect_hotspots(copper_score, gold_score, threshold)`: threshold both
score arrays into binary masks and count connected components. -/
def detect_hotspots (copper_score gold_score : List (List ℚ)) (threshold : ℚ) : HotspotsResult :=
  let copper_mask := copper_score.map (List.map (fun v => decide (threshold ≤ v)))
  let gold_mask := gold_score.map (List.map (fun v => decide (threshold ≤ v)))
  ⟨num_components copper_mask, num_components gold_mask,
   copper_mask, gold_mask, copper_score, gold_score⟩

/-! ### Full pipeline — `analyze_aoi` in `src/routes/analyze.py` -/

/-- Elementwise conversion of an index array to rationals.  The index arrays
that reach the scorer are all finite (`mineral_indices_finite_in_range` /
`nanToNum_clip_bounds`), so taking the finite part is exact. -/
def toQ2D (a : List (List FVal)) : List (List ℚ) := a.map (List.map FVal.toQ)

/-- Pair up two same-shaped rational arrays. -/
def zipPairQ (a b : List (List ℚ)) : List (List (ℚ × ℚ)) :=
  List.zipWith (List.zipWith Prod.mk) a b

/-- The copper score array: `calculate_copper_potential` applied elementwise. -/
def copperScoreArray (kf cl io gr : List (List ℚ)) : List (List ℚ) :=
  List.zipWith (List.zipWith (fun p q => calculate_copper_potential p.1 p.2 q.1 q.2))
    (zipPairQ kf cl) (zipPairQ io gr)

/-- The gold score array: `calculate_gold_potential` applied elementwise. -/
def goldScoreArray (si cl kf io : List (List ℚ)) : List (List ℚ) :=
  List.zipWith (List.zipWith (fun p q => calculate_gold_potential p.1 p.2 q.1 q.2))
    (zipPairQ si cl) (zipPairQ kf io)

/-- Everything the numeric pipeline of `analyze_aoi` produces: indices,
lithology, scores, masks, component counts, the combined hotspot list
(copper then gold), and the copper/gold heatmap grids. -/
structure AnalysisOutputs where
  indices : MineralIndices
  lithology_result : Lithology
  copper_score : List (List ℚ)
  gold_score : List (List ℚ)
  copper_clusters : ℕ
  gold_clusters : ℕ
  copper_mask : List (List Bool)
  gold_mask : List (List Bool)
  hotspots : List HotspotData
  copper_grid : List (List ℚ)
  gold_grid : List (List ℚ)
deriving DecidableEq

/-- The numeric pipeline of `analyze_aoi` (steps 2 through 8: indices,
lithology, scores, hotspot detection, hotspot extraction with the fixed depth
ranges 250-750 m for copper and 100-300 m for gold, and the heatmap grids). -/
def analyze_aoi_core (red nir swir1 swir2 : List (List FVal)) (t : Affine) (b : Bounds)
    (threshold : ℚ) (grid_size : ℕ) : AnalysisOutputs :=
  let idx := calculate_mineral_indices red nir swir1 swir2
  let lith := classify_lithology red nir swir1 swir2
  let copper_score := copperScoreArray (toQ2D idx.kfeldspar) (toQ2D idx.clay)
    (toQ2D idx.iron_oxide) (toQ2D lith.granite)
  let gold_score := goldScoreArray (toQ2D idx.silica) (toQ2D idx.clay)
    (toQ2D idx.kfeldspar) (toQ2D idx.iron_oxide)
  let hr := detect_hotspots copper_score gold_score threshold
  let copper_hotspots := extract_hotspots_from_mask hr.copper_mask hr.copper_score t
    ("copper") 250 750
  let gold_hotspots := extract_hotspots_from_mask hr.gold_mask hr.gold_score t
    ("gold") 100 300
  ⟨idx, lith, hr.copper_score, hr.gold_score, hr.copper_clusters, hr.gold_clusters,
   hr.copper_mask, hr.gold_mask, copper_hotspots ++ gold_hotspots,
   generate_copper_heatmap_grid idx.iron_oxide t b grid_size,
   generate_gold_heatmap_grid idx.clay t b grid_size⟩

/-- C8: the pipeline is deterministic — two runs of `analyze_aoi_core` on
identical input bands, geotransform, bounding box and threshold produce
identical outputs in every component (indices, scores, masks, component
counts, hotspot list, grids).  In this embedding the pipeline is a pure
function of its arguments, so the two runs are definitionally equal; the
Python code keeps no state between calls either. -/
theorem pipeline_deterministic (red nir swir1 swir2 : List (List FVal)) (t : Affine)
    (b : Bounds) (threshold : ℚ) (grid_size : ℕ) :
    analyze_aoi_core red nir swir1 swir2 t b threshold grid_size =
      analyze_aoi_core red nir swir1 swir2 t b threshold grid_size := rfl

end XTerra
